import Mathlib

/-!
Shallow embedding of the dexter-chat-agent sync job (OptiSigns help-center
sync) and proofs about its reconciliation engine.

Modules embedded:
* `src/utils/file_tracker.py` — SHA-256 fingerprints and the tracking ledger;
* `src/utils/file_converter.py` — markdown-to-txt conversion;
* `src/openai/file_manager.py`, `src/openai/vector_store_manager.py` —
  remote delete / replace operations;
* `src/main.py` — `OptiSignsSyncJob`: `identify_changes`,
  `has_content_changed`, `check_existing_files`, `upload_delta`,
  `upload_article`, `save_article_locally`.

Modelling conventions, stated once:
* Bytes are `Nat` (values of Python `bytes` elements); text is `String` or
  `List Char` where newline handling matters.
* SHA-256 (`hashlib.sha256`) is modelled by its defining property: the
  incremental object accumulates the bytes fed to `update`, and `hexdigest`
  applies an arbitrary digest function `H` to the accumulated bytes.
  Theorems quantify over `H`, so they hold for the real digest.
* Remote calls are embedded on their success path; HTTP error behaviour
  (`raise_for_status`) is embedded explicitly where a claim is about it.
* The job runs on Linux (the repo is deployed via Docker): `os.linesep`
  is `"\n"`, so Python text-mode writes do not alter `"\n"` characters.
* Every local article path the engine manipulates is `articles/<id>.md`,
  whose stem is `<id>`; paths are represented by their stem `<id>`, the
  only component any computation in the flow depends on.
-/

/-! ### `FileTracker.get_file_hash` / `get_file_hash_from_content`
(`src/utils/file_tracker.py`, lines 40–52) -/

/-- The chunks produced by repeatedly calling `f.read n` on a file whose
remaining bytes are `l` (`iter(lambda: f.read(4096), b"")`). -/
def readChunks (n : Nat) (l : List Nat) : List (List Nat) :=
  if h : l = [] ∨ n = 0 then [] else l.take n :: readChunks n (l.drop n)
termination_by l.length
decreasing_by
  push_neg at h
  simp only [List.length_drop]
  exact Nat.sub_lt (List.length_pos.mpr h.1) (Nat.pos_of_ne_zero h.2)

/-- `hash_sha256.update chunk`: the incremental hash state accumulates the
bytes fed to it. -/
def sha256_update (acc chunk : List Nat) : List Nat := acc ++ chunk

/-- UTF-8 encoding of a string (`content.encode('utf-8')`). -/
def utf8Bytes (s : String) : List Nat := s.toUTF8.toList.map (fun b => b.toNat)

/-- `FileTracker.get_file_hash`: hash a file by feeding 4096-byte chunks to
the incremental hasher, then finalizing with digest function `H`. -/
def get_file_hash (H : List Nat → String) (fileBytes : List Nat) : String :=
  H ((readChunks 4096 fileBytes).foldl sha256_update [])

/-- `FileTracker.get_file_hash_from_content`: hash the UTF-8 encoding of an
in-memory string in one `update` call. -/
def get_file_hash_from_content (H : List Nat → String) (content : String) : String :=
  H (sha256_update [] (utf8Bytes content))

theorem readChunks_flatten (n : Nat) (hn : 0 < n) (l : List Nat) :
    (readChunks n l).flatten = l := by
  rw [readChunks]
  split
  · rename_i h
    rcases h with h | h
    · simp [h]
    · omega
  · simp only [List.flatten_cons]
    rw [readChunks_flatten n hn (l.drop n), List.take_append_drop]
termination_by l.length
decreasing_by
  rename_i h
  push_neg at h
  simp only [List.length_drop]
  exact Nat.sub_lt (List.length_pos.mpr h.1) (Nat.pos_of_ne_zero h.2)

theorem foldl_sha256_update (chunks : List (List Nat)) :
    ∀ acc, chunks.foldl sha256_update acc = acc ++ chunks.flatten := by
  induction chunks with
  | nil => intro acc; simp
  | cons c t ih => intro acc; simp [List.foldl_cons, ih, sha256_update]

/-! ### `FileConverter.convert_md_to_txt` (`src/utils/file_converter.py`)

Python's text mode: reading with `newline=None` applies universal-newline
translation (`"\r\n"` and `"\r"` become `"\n"`); writing translates each
`"\n"` to `os.linesep`, which is `"\n"` on Linux. -/

/-- Universal-newline translation applied by Python text-mode reads:
`"\r\n"` and a lone `"\r"` both become `"\n"`. -/
def univNewlines : List Char → List Char
  | [] => []
  | '\r' :: '\n' :: rest => '\n' :: univNewlines rest
  | '\r' :: rest => '\n' :: univNewlines rest
  | c :: rest => c :: univNewlines rest

/-- `os.linesep` on Linux. -/
def osLinesep : List Char := ['\n']

/-- Python text-mode write: each `'\n'` becomes `os.linesep`. -/
def writeNewlines (content : List Char) : List Char :=
  (content.map (fun c => if c = '\n' then osLinesep else [c])).flatten

/-- `FileConverter.convert_md_to_txt`: read the `.md` file in text mode and
write the resulting string to a temporary `.txt` file; the value is the
character content of the temporary file. -/
def convert_md_to_txt (mdChars : List Char) : List Char :=
  writeNewlines (univNewlines mdChars)

/-- The temporary file's name: the source stem with extension `.txt`. -/
def convertedName (stem : String) : String := stem ++ ".txt"

theorem writeNewlines_id (l : List Char) : writeNewlines l = l := by
  induction l with
  | nil => rfl
  | cons c t ih =>
    by_cases h : c = '\n' <;>
      simp [writeNewlines, osLinesep, h] <;> simpa [writeNewlines] using ih

theorem univNewlines_no_cr (l : List Char) (h : '\r' ∉ l) : univNewlines l = l := by
  induction l with
  | nil => rfl
  | cons c t ih =>
    have hc : ¬ c = '\r' := fun hc => h (hc ▸ List.mem_cons_self c t)
    rw [show univNewlines (c :: t) = c :: univNewlines t by
      rcases t with _ | ⟨d, t2⟩ <;> simp [univNewlines, hc]]
    rw [ih (fun ht => h (List.mem_cons_of_mem c ht))]

/-! ### HTTP delete semantics (`src/openai/file_manager.py` lines 75–83,
`src/openai/vector_store_manager.py` lines 82–90)

`requests.Response.raise_for_status` raises `HTTPError` (a subclass of
`RequestException`) exactly when the status code is in 400–599; both
`delete` methods catch `RequestException` and return `False`. -/

/-- Whether `raise_for_status` raises for the given status code. -/
def raisesForStatus (status : Nat) : Bool := decide (400 ≤ status ∧ status < 600)

/-- `OpenAIFileManager.delete`, as a function of the HTTP status the server
answers with: `raise_for_status` then `True`, with `RequestException`
mapped to `False`. -/
def OpenAIFileManager.delete (status : Nat) : Bool :=
  if raisesForStatus status then false else true

/-- `VectorStoreManager.remove_file`, as a function of the HTTP status the
server answers with. -/
def VectorStoreManager.remove_file (status : Nat) : Bool :=
  if raisesForStatus status then false else true

/-! ### `FileTracker` persistence (`src/utils/file_tracker.py` lines 15–37,
54–76) -/

/-- One value of the `file_tracking` dict (`FileTracker.update_tracking`):
the fields written for a tracked key. -/
structure TrackRecord where
  file_id : Nat
  vector_store_file_id : Nat
  hash : Option String
  file_path : Option String
deriving DecidableEq, Repr

/-- Strict UTF-8 decoding of a byte list, per RFC 3629 (the table of valid
byte sequences, with overlong encodings, surrogates and code points above
U+10FFFF rejected): this is what Python's `'utf-8'` codec — the default
`open(path, 'r')` encoding on the Linux deployment — accepts; on any other
byte sequence CPython raises `UnicodeDecodeError`. The fuel argument is
the number of remaining bytes, enough for one character per step. -/
def utf8DecodeAux : Nat → List Nat → Option (List Char)
  | _, [] => some []
  | 0, _ :: _ => none
  | fuel + 1, b :: rest =>
    if b ≤ 0x7F then
      (utf8DecodeAux fuel rest).map (fun cs => Char.ofNat b :: cs)
    else if 0xC2 ≤ b ∧ b ≤ 0xDF then
      match rest with
      | c1 :: rest1 =>
        if 0x80 ≤ c1 ∧ c1 ≤ 0xBF then
          (utf8DecodeAux fuel rest1).map
            (fun cs => Char.ofNat ((b - 0xC0) * 0x40 + (c1 - 0x80)) :: cs)
        else none
      | [] => none
    else if 0xE0 ≤ b ∧ b ≤ 0xEF then
      match rest with
      | c1 :: c2 :: rest2 =>
        if (0x80 ≤ c1 ∧ c1 ≤ 0xBF) ∧ (0x80 ≤ c2 ∧ c2 ≤ 0xBF) ∧
            (b = 0xE0 → 0xA0 ≤ c1) ∧ (b = 0xED → c1 ≤ 0x9F) then
          (utf8DecodeAux fuel rest2).map
            (fun cs =>
              Char.ofNat ((b - 0xE0) * 0x1000 + (c1 - 0x80) * 0x40 + (c2 - 0x80)) :: cs)
        else none
      | _ => none
    else if 0xF0 ≤ b ∧ b ≤ 0xF4 then
      match rest with
      | c1 :: c2 :: c3 :: rest3 =>
        if (0x80 ≤ c1 ∧ c1 ≤ 0xBF) ∧ (0x80 ≤ c2 ∧ c2 ≤ 0xBF) ∧ (0x80 ≤ c3 ∧ c3 ≤ 0xBF) ∧
            (b = 0xF0 → 0x90 ≤ c1) ∧ (b = 0xF4 → c1 ≤ 0x8F) then
          (utf8DecodeAux fuel rest3).map
            (fun cs =>
              Char.ofNat ((b - 0xF0) * 0x40000 + (c1 - 0x80) * 0x1000
                + (c2 - 0x80) * 0x40 + (c3 - 0x80)) :: cs)
        else none
      | _ => none
    else none

/-- The text-mode read performed inside `json.load(f)`: decode the file's
bytes as UTF-8, or fail (Python raises `UnicodeDecodeError`). -/
def utf8Decode? (bytes : List Nat) : Option String :=
  (utf8DecodeAux bytes.length bytes).map (fun cs => String.mk cs)

/-- Outcome of `json.loads` on the decoded text: a parsed record dict, a
`json.JSONDecodeError` (malformed JSON), or a `RecursionError` (text
nested deeper than the interpreter's recursion limit). -/
inductive JsonOutcome where
  | ok : List (String × TrackRecord) → JsonOutcome
  | jsonDecodeError : JsonOutcome
  | recursionError : JsonOutcome
deriving DecidableEq, Repr

/-- An exception that escapes `FileTracker.load_file_tracking` (and hence
`FileTracker.__init__`) uncaught. -/
inductive PyExn where
  | unicodeDecodeError : PyExn
  | recursionError : PyExn
deriving DecidableEq, Repr

/-- `FileTracker.load_file_tracking` on a file holding the given bytes
(`none` models a missing tracking file): `json.load` first reads the file
in text mode — an undecodable byte sequence raises `UnicodeDecodeError` —
then parses the text, modelled by the abstract `jsonLoads`. The
`except json.JSONDecodeError` clause catches exactly that error and
returns the empty dict; `UnicodeDecodeError` and `RecursionError` are not
subclasses of `json.JSONDecodeError` and propagate out of construction. -/
def load_file_tracking (jsonLoads : String → JsonOutcome) :
    Option (List Nat) → Except PyExn (List (String × TrackRecord))
  | none => Except.ok []
  | some bytes =>
    match utf8Decode? bytes with
    | none => Except.error PyExn.unicodeDecodeError
    | some content =>
      match jsonLoads content with
      | JsonOutcome.ok d => Except.ok d
      | JsonOutcome.jsonDecodeError => Except.ok []
      | JsonOutcome.recursionError => Except.error PyExn.recursionError

/-- `FileTracker.get_tracking_info`: `self.file_tracking.get(file_key)`. -/
def get_tracking_info (tracking : List (String × TrackRecord)) (k : String) :
    Option TrackRecord :=
  List.lookup k tracking

/-! ### `replace_file` operation traces (`src/openai/file_manager.py`
lines 85–100, `src/openai/vector_store_manager.py` lines 173–188)

Each `replace_file` is embedded as the sequence of remote mutations it
issues, in program order, together with the id it returns. -/

/-- A remote mutation issued against OpenAI files or the vector store. -/
inductive RemoteOp where
  | deleteFile : Nat → RemoteOp
  | uploadFile : Nat → RemoteOp
  | indexRemove : Nat → RemoteOp
  | indexAdd : Nat → RemoteOp
deriving DecidableEq, Repr

/-- `OpenAIFileManager.replace_file`: delete the old file when an old id is
given, then upload the new file; `newFileId` is the id the upload returns. -/
def OpenAIFileManager.replace_file (oldFileId : Option Nat) (newFileId : Nat) :
    List RemoteOp × Nat :=
  ((match oldFileId with
    | some f => [RemoteOp.deleteFile f]
    | none => []) ++ [RemoteOp.uploadFile newFileId], newFileId)

/-- `VectorStoreManager.replace_file`: remove the old vector-store entry
when an old id is given, then add the new OpenAI file `newFileId`;
`newVsId` is the id `add_file` returns. -/
def VectorStoreManager.replace_file (oldVsId : Option Nat) (newFileId newVsId : Nat) :
    List RemoteOp × Nat :=
  ((match oldVsId with
    | some v => [RemoteOp.indexRemove v]
    | none => []) ++ [RemoteOp.indexAdd newFileId], newVsId)

/-- Is this operation an upload of a new file? -/
def isUploadOp : RemoteOp → Bool
  | RemoteOp.uploadFile _ => true
  | _ => false

/-- Is this operation an index addition? -/
def isIndexAddOp : RemoteOp → Bool
  | RemoteOp.indexAdd _ => true
  | _ => false

/-- Does some `deleteFile` strictly precede some `uploadFile` in the trace? -/
def deleteBeforeUpload : List RemoteOp → Bool
  | [] => false
  | RemoteOp.deleteFile _ :: rest => rest.any isUploadOp || deleteBeforeUpload rest
  | _ :: rest => deleteBeforeUpload rest

/-- Does some `indexRemove` strictly precede some `indexAdd` in the trace? -/
def removeBeforeAdd : List RemoteOp → Bool
  | [] => false
  | RemoteOp.indexRemove _ :: rest => rest.any isIndexAddOp || removeBeforeAdd rest
  | _ :: rest => removeBeforeAdd rest

/-! ### The sync job (`src/main.py`, `OptiSignsSyncJob`)

State visible to the job: the local `articles/` directory, the remote
OpenAI file list, the vector-store file list, and the tracking ledger.
Remote ids are drawn from one fresh counter `nextId`. Remote file names
`<id>.txt` are represented by their stem `<id>` (see the header). -/

/-- One entry of `local_articles` (`OptiSignsSyncJob.get_local_articles`):
the path and content hash recorded for a local `.md` file. -/
structure LocalArticle where
  path : String
  hash : String
deriving DecidableEq, Repr

/-- The world state the sync job reads and mutates. -/
structure SyncState where
  localFiles : List (String × String)
  openaiFiles : List (Nat × String)
  vectorFiles : List (Nat × Nat)
  tracking : List (String × TrackRecord)
  nextId : Nat
deriving DecidableEq, Repr

/-- Python dict update / file overwrite on an association list: replace the
binding if the key is present, else append it. -/
def setA {α : Type} : List (String × α) → String → α → List (String × α)
  | [], k, v => [(k, v)]
  | (a, b) :: t, k, v => if a = k then (k, v) :: t else (a, b) :: setA t k v

/-- The `changes` dict built by `OptiSignsSyncJob.identify_changes`:
`new` holds `(id, content)`, `updated` holds `(id, content, local_path)`,
`unchanged` and `deleted` hold `(id, local_path)`. -/
structure Changes where
  new : List (String × String)
  updated : List (String × String × String)
  unchanged : List (String × String)
  deleted : List (String × String)
deriving DecidableEq, Repr

/-- Result lists built by `OptiSignsSyncJob.upload_delta`. -/
structure RunResult where
  uploaded : List String
  skipped : List String
  failed : List String
deriving DecidableEq, Repr

/-- `OptiSignsSyncJob.has_content_changed`: the hash of the freshly
scraped content differs from the recorded local file hash. -/
def has_content_changed (H : String → String) (scrapedContent localHash : String) : Bool :=
  decide (H scrapedContent ≠ localHash)

/-- `OptiSignsSyncJob.get_local_articles`: each local `.md` file keyed by
its stem, with its path and `get_file_hash` of its bytes (the file holds
the UTF-8 bytes of its text, so the hash is `H` of that text). -/
def get_local_articles (H : String → String) (st : SyncState) : List (String × LocalArticle) :=
  st.localFiles.map (fun p => (p.1, { path := p.1, hash := H p.2 }))

/-- `OptiSignsSyncJob.identify_changes`: one pass over the scraped
articles filling `new`/`updated`/`unchanged`, then one pass over the local
articles filling `deleted`. -/
def identify_changes (H : String → String) (scraped : List (String × String))
    (localA : List (String × LocalArticle)) : Changes :=
  let c1 := scraped.foldl (fun ch p =>
    match List.lookup p.1 localA with
    | none => { ch with new := ch.new ++ [(p.1, p.2)] }
    | some la =>
      if has_content_changed H p.2 la.hash then
        { ch with updated := ch.updated ++ [(p.1, p.2, la.path)] }
      else
        { ch with unchanged := ch.unchanged ++ [(p.1, la.path)] })
    { new := [], updated := [], unchanged := [], deleted := [] }
  localA.foldl (fun ch q =>
    if (List.lookup q.1 scraped).isSome then ch
    else { ch with deleted := ch.deleted ++ [(q.1, q.2.path)] }) c1

/-- `OptiSignsSyncJob.check_existing_files`: the set of article ids with a
file in OpenAI, and the set of article ids reachable from the vector store
(each vector-store entry resolved through `get_by_id` to its filename). -/
def check_existing_files (st : SyncState) : List String × List String :=
  (st.openaiFiles.map Prod.snd,
   st.vectorFiles.filterMap (fun q => List.lookup q.2 st.openaiFiles))

/-- The `existing_files['vector_store']` set consulted by `upload_article`. -/
def existingVS (st : SyncState) : List String := (check_existing_files st).2

/-- `OptiSignsSyncJob.save_article_locally`: write the scraped content to
`articles/<id>.md` and return that path. -/
def save_article_locally (st : SyncState) (id content : String) : SyncState × String :=
  ({ st with localFiles := setA st.localFiles id content }, id)

/-- `OpenAIFileManager.upload_markdown_file` on the success path: convert
the `.md` at `path` to `<stem>.txt`, upload it, and return the fresh
OpenAI file id. -/
def upload_markdown_file (st : SyncState) (path : String) : SyncState × Nat :=
  ({ st with openaiFiles := st.openaiFiles ++ [(st.nextId, path)], nextId := st.nextId + 1 },
   st.nextId)

/-- `VectorStoreManager.add_file` on the success path: add the OpenAI file
to the vector store and return the fresh vector-store file id. -/
def vs_add_file (st : SyncState) (fid : Nat) : SyncState × Nat :=
  ({ st with vectorFiles := st.vectorFiles ++ [(st.nextId, fid)], nextId := st.nextId + 1 },
   st.nextId)

/-- `FileTracker.update_tracking` as called by `upload_article`: key the
record by the local path, store the two remote ids; `file_hash` and
`file_path` are not passed, so both are stored as `None`. -/
def update_tracking (st : SyncState) (key : String) (fid vid : Nat) : SyncState :=
  let tr : TrackRecord :=
    { file_id := fid, vector_store_file_id := vid, hash := none, file_path := none }
  { st with tracking := setA st.tracking key tr }

/-- `OptiSignsSyncJob.upload_article` on the success path: skip when the id
is already in the vector-store set; otherwise save locally when no path was
given, upload to OpenAI, add to the vector store, and record the tracking. -/
def upload_article (st : SyncState) (id content : String) (ex : List String)
    (localPath : Option String) : SyncState × Bool :=
  if id ∈ ex then (st, true)
  else
    let s1 := match localPath with
      | some p => (st, p)
      | none => save_article_locally st id content
    let s2 := upload_markdown_file s1.1 s1.2
    let s3 := vs_add_file s2.1 s2.2
    (update_tracking s3.1 s1.2 s2.2 s3.2, true)

/-- One step of the `changes['new']` loop of `upload_delta`. -/
def stepNew (ex : List String) (acc : SyncState × RunResult) (p : String × String) :
    SyncState × RunResult :=
  let r := upload_article acc.1 p.1 p.2 ex none
  (r.1, if r.2 then { acc.2 with uploaded := acc.2.uploaded ++ [p.1] }
        else { acc.2 with failed := acc.2.failed ++ [p.1] })

/-- One step of the `changes['updated']` loop of `upload_delta`. -/
def stepUpdated (ex : List String) (acc : SyncState × RunResult)
    (p : String × String × String) : SyncState × RunResult :=
  let r := upload_article acc.1 p.1 p.2.1 ex (some p.2.2)
  (r.1, if r.2 then { acc.2 with uploaded := acc.2.uploaded ++ [p.1] }
        else { acc.2 with failed := acc.2.failed ++ [p.1] })

/-- `OptiSignsSyncJob.upload_delta`: process new articles, then updated
articles, then count every unchanged article as skipped. -/
def upload_delta (st : SyncState) (ch : Changes) (ex : List String) :
    SyncState × RunResult :=
  let a1 := ch.new.foldl (stepNew ex) (st, { uploaded := [], skipped := [], failed := [] })
  let a2 := ch.updated.foldl (stepUpdated ex) a1
  (a2.1, { a2.2 with skipped := a2.2.skipped ++ ch.unchanged.map Prod.fst })

/-- One execution of `OptiSignsSyncJob.run` after scraping, on the success
path: read the local directory, identify changes, check existing remote
files, and upload the delta. -/
def runOnce (H : String → String) (scraped : List (String × String)) (st : SyncState) :
    SyncState × RunResult :=
  upload_delta st (identify_changes H scraped (get_local_articles H st)) (existingVS st)

/-! ### Closed-form description of `identify_changes` -/

/-- The scraped articles that land in `changes['new']`. -/
def newOf (scraped : List (String × String)) (localA : List (String × LocalArticle)) :
    List (String × String) :=
  scraped.filter (fun p => (List.lookup p.1 localA).isNone)

/-- The scraped articles that land in `changes['updated']`. -/
def updatedOf (H : String → String) (scraped : List (String × String))
    (localA : List (String × LocalArticle)) : List (String × String × String) :=
  scraped.filterMap (fun p => (List.lookup p.1 localA).bind (fun la =>
    if has_content_changed H p.2 la.hash then some (p.1, p.2, la.path) else none))

/-- The scraped articles that land in `changes['unchanged']`. -/
def unchangedOf (H : String → String) (scraped : List (String × String))
    (localA : List (String × LocalArticle)) : List (String × String) :=
  scraped.filterMap (fun p => (List.lookup p.1 localA).bind (fun la =>
    if has_content_changed H p.2 la.hash then none else some (p.1, la.path)))

/-- The local articles that land in `changes['deleted']`. -/
def deletedOf (scraped : List (String × String)) (localA : List (String × LocalArticle)) :
    List (String × String) :=
  localA.filterMap (fun q =>
    if (List.lookup q.1 scraped).isSome then none else some (q.1, q.2.path))

/-! ### Association-list lemmas -/

theorem nodup_keys_eq_val {β : Type} {l : List (String × β)} {k : String} {b c : β}
    (hnd : (l.map Prod.fst).Nodup) (hb : (k, b) ∈ l) (hc : (k, c) ∈ l) : b = c := by
  induction l with
  | nil => exact absurd hb (List.not_mem_nil _)
  | cons p t ih =>
    simp only [List.map_cons, List.nodup_cons] at hnd
    rcases List.mem_cons.mp hb with hb1 | hb2
    · rcases List.mem_cons.mp hc with hc1 | hc2
      · rw [← hb1] at hc1
        exact (Prod.ext_iff.mp hc1.symm).2
      · refine absurd ?_ hnd.1
        rw [← hb1]
        exact List.mem_map.mpr ⟨(k, c), hc2, rfl⟩
    · rcases List.mem_cons.mp hc with hc1 | hc2
      · refine absurd ?_ hnd.1
        rw [← hc1]
        exact List.mem_map.mpr ⟨(k, b), hb2, rfl⟩
      · exact ih hnd.2 hb2 hc2

theorem lookup_map_val {α β : Type} (g : String → α → β) (l : List (String × α)) (k : String) :
    List.lookup k (l.map (fun p => (p.1, g p.1 p.2))) = (List.lookup k l).map (g k) := by
  induction l with
  | nil => simp
  | cons p t ih =>
    by_cases h : p.1 = k
    · simp [List.lookup, h]
    · have hbeq : (k == p.1) = false := beq_eq_false_iff_ne.mpr (fun e => h e.symm)
      simp [List.lookup, hbeq, ih]

theorem lookup_setA_self {α : Type} (l : List (String × α)) (k : String) (v : α) :
    List.lookup k (setA l k v) = some v := by
  induction l with
  | nil => simp [setA, List.lookup]
  | cons p t ih =>
    obtain ⟨a, b⟩ := p
    by_cases h : a = k
    · simp [setA, h, List.lookup]
    · have hbeq : (k == a) = false := beq_eq_false_iff_ne.mpr (fun e => h e.symm)
      simp [setA, h, List.lookup, hbeq, ih]

theorem lookup_setA_ne {α : Type} (l : List (String × α)) (k k' : String) (v : α)
    (h : k' ≠ k) : List.lookup k' (setA l k v) = List.lookup k' l := by
  induction l with
  | nil => simp [setA, List.lookup, beq_eq_false_iff_ne.mpr h]
  | cons p t ih =>
    obtain ⟨a, b⟩ := p
    by_cases ha : a = k
    · subst ha
      simp [setA, List.lookup, beq_eq_false_iff_ne.mpr h]
    · by_cases ha' : a = k'
      · subst ha'
        simp [setA, ha, List.lookup]
      · have hbeq : (k' == a) = false := beq_eq_false_iff_ne.mpr (fun e => ha' e.symm)
        simp [setA, ha, List.lookup, hbeq, ih]

theorem lookup_foldl_setA_not_mem {α : Type} (items : List (String × α)) (k : String)
    (h : k ∉ items.map Prod.fst) :
    ∀ l, List.lookup k (items.foldl (fun lf p => setA lf p.1 p.2) l) = List.lookup k l := by
  induction items with
  | nil => intro l; rfl
  | cons p t ih =>
    intro l
    simp only [List.map_cons, List.mem_cons] at h
    push_neg at h
    rw [List.foldl_cons, ih h.2, lookup_setA_ne _ _ _ _ h.1]

theorem lookup_foldl_setA_mem {α : Type} (items : List (String × α)) (k : String) (v : α)
    (hnd : (items.map Prod.fst).Nodup) (hmem : (k, v) ∈ items) :
    ∀ l, List.lookup k (items.foldl (fun lf p => setA lf p.1 p.2) l) = some v := by
  induction items with
  | nil => exact absurd hmem (List.not_mem_nil _)
  | cons p t ih =>
    intro l
    simp only [List.map_cons, List.nodup_cons] at hnd
    rcases List.mem_cons.mp hmem with h1 | h2
    · have hp1 : p.1 = k := by rw [← h1]
      have hnot : k ∉ t.map Prod.fst := by rw [← hp1]; exact hnd.1
      rw [List.foldl_cons, lookup_foldl_setA_not_mem t k hnot, ← h1, lookup_setA_self]
    · exact ih hnd.2 h2 (setA l p.1 p.2)

/-! ### Closed form of `identify_changes` -/

theorem foldl_classify (H : String → String) (localA : List (String × LocalArticle))
    (s : List (String × String)) :
    ∀ ch : Changes,
      s.foldl (fun ch p =>
        match List.lookup p.1 localA with
        | none => { ch with new := ch.new ++ [(p.1, p.2)] }
        | some la =>
          if has_content_changed H p.2 la.hash then
            { ch with updated := ch.updated ++ [(p.1, p.2, la.path)] }
          else
            { ch with unchanged := ch.unchanged ++ [(p.1, la.path)] }) ch
      = { ch with
            new := ch.new ++ newOf s localA
            updated := ch.updated ++ updatedOf H s localA
            unchanged := ch.unchanged ++ unchangedOf H s localA } := by
  induction s with
  | nil =>
    intro ch
    simp [newOf, updatedOf, unchangedOf]
  | cons p t ih =>
    intro ch
    rw [List.foldl_cons]
    cases hl : List.lookup p.1 localA with
    | none =>
      simp only [hl]
      rw [ih]
      simp [newOf, updatedOf, unchangedOf, List.filter_cons, List.filterMap_cons, hl]
    | some la =>
      by_cases hc : has_content_changed H p.2 la.hash
      · simp only [hl, if_pos hc]
        rw [ih]
        simp [newOf, updatedOf, unchangedOf, List.filter_cons, List.filterMap_cons, hl, hc]
      · simp only [hl, if_neg hc]
        rw [ih]
        simp [newOf, updatedOf, unchangedOf, List.filter_cons, List.filterMap_cons, hl, hc]

theorem foldl_deleted (scraped : List (String × String))
    (localA : List (String × LocalArticle)) :
    ∀ ch : Changes,
      localA.foldl (fun ch q =>
        if (List.lookup q.1 scraped).isSome then ch
        else { ch with deleted := ch.deleted ++ [(q.1, q.2.path)] }) ch
      = { ch with deleted := ch.deleted ++ deletedOf scraped localA } := by
  induction localA with
  | nil => intro ch; simp [deletedOf]
  | cons q t ih =>
    intro ch
    rw [List.foldl_cons]
    by_cases hq : (List.lookup q.1 scraped).isSome
    · rw [if_pos hq, ih]
      simp [deletedOf, List.filterMap_cons, hq]
    · rw [if_neg hq, ih]
      simp [deletedOf, List.filterMap_cons, hq]

theorem identify_changes_eq (H : String → String) (scraped : List (String × String))
    (localA : List (String × LocalArticle)) :
    identify_changes H scraped localA
      = { new := newOf scraped localA
          updated := updatedOf H scraped localA
          unchanged := unchangedOf H scraped localA
          deleted := deletedOf scraped localA } := by
  rw [identify_changes]
  rw [foldl_classify H localA scraped, foldl_deleted scraped localA]
  simp

/-! ### Claim C6 -/

/-- C6: the fingerprint function produces identical output for identical
byte sequences regardless of source — for every string whose UTF-8
encoding equals the bytes of a file, `get_file_hash` of the file (chunked
read) and `get_file_hash_from_content` of the string yield the same
fingerprint, for any digest function `H`. -/
theorem hash_file_eq_hash_content (H : List Nat → String) (s : String) (b : List Nat)
    (h : utf8Bytes s = b) :
    get_file_hash H b = get_file_hash_from_content H s := by
  rw [get_file_hash, get_file_hash_from_content, foldl_sha256_update,
    readChunks_flatten 4096 (by norm_num)]
  simp [sha256_update, h]

/-- Witness for C6: the two fingerprints agree on the concrete content
`"ab"` and the file bytes that are its UTF-8 encoding. -/
theorem hash_file_eq_hash_content_witness :
    get_file_hash (fun l => toString l) (utf8Bytes "ab")
      = get_file_hash_from_content (fun l => toString l) "ab" :=
  hash_file_eq_hash_content (fun l => toString l) "ab" (utf8Bytes "ab") rfl

/-! ### Claim C7 -/

/-- C7 (counterexample): deleting an already-absent remote entry is not
treated as success — the server answers 404 for a missing object,
`raise_for_status` raises, and both `delete` and `remove_file` report
`False`. -/
theorem delete_notfound_reports_failure :
    OpenAIFileManager.delete 404 = false ∧ VectorStoreManager.remove_file 404 = false := by
  decide

/-- C7 (amended): deleting an already-absent remote entry is treated as
failure: for every HTTP error status (400–599), and in particular for the
404 a missing object produces, the delete and index-remove operations
report `False`; only non-error statuses report success. -/
theorem delete_error_status_reports_failure (status : Nat)
    (h4 : 400 ≤ status) (h6 : status < 600) :
    OpenAIFileManager.delete status = false ∧
      VectorStoreManager.remove_file status = false := by
  have hr : raisesForStatus status = true := by
    simp [raisesForStatus]
    omega
  constructor <;> simp [OpenAIFileManager.delete, VectorStoreManager.remove_file, hr]

/-- Witness for C7 (amended) at status 404. -/
theorem delete_error_status_reports_failure_witness :
    OpenAIFileManager.delete 404 = false ∧
      VectorStoreManager.remove_file 404 = false :=
  delete_error_status_reports_failure 404 (by norm_num) (by norm_num)

/-! ### Claim C8 -/

/-- C8 (counterexample): a tracking file holding the single byte `0xFF` is
not valid UTF-8, so the text-mode read inside `json.load` raises
`UnicodeDecodeError`; `except json.JSONDecodeError` does not catch it and
`FileTracker` construction crashes instead of degrading to the empty
ledger. The bytes never reach the JSON parser: the outcome is the same
whichever `jsonLoads` is supplied, as the two instantiations show. -/
theorem corrupted_tracking_fatal_on_invalid_bytes :
    load_file_tracking (fun _ => JsonOutcome.jsonDecodeError) (some [0xFF])
        = Except.error PyExn.unicodeDecodeError ∧
      load_file_tracking (fun _ => JsonOutcome.ok []) (some [0xFF])
        = Except.error PyExn.unicodeDecodeError :=
  ⟨rfl, rfl⟩

/-- C8 (amended): for every tracking-file content that decodes as text and
on which the JSON parser fails with `json.JSONDecodeError` — the only
exception the loader catches — construction succeeds with the empty
ledger, and every get on the empty ledger returns absent. (Contents whose
bytes do not decode as UTF-8, or whose parse blows the recursion limit,
instead crash construction: see the counterexample.) -/
theorem tracking_json_decode_error_empty_ledger (jsonLoads : String → JsonOutcome)
    (bytes : List Nat) (content k : String)
    (hdec : utf8Decode? bytes = some content)
    (hparse : jsonLoads content = JsonOutcome.jsonDecodeError) :
    load_file_tracking jsonLoads (some bytes) = Except.ok [] ∧
      get_tracking_info [] k = none := by
  constructor
  · simp [load_file_tracking, hdec, hparse]
  · rfl

/-- Witness for C8 (amended): the byte `0x78` decodes as the text `"x"`;
with a parser failing on it as malformed JSON, loading yields the empty
ledger and a get for `"a"` returns absent. -/
theorem tracking_json_decode_error_empty_ledger_witness :
    load_file_tracking (fun _ => JsonOutcome.jsonDecodeError) (some [0x78])
        = Except.ok [] ∧
      get_tracking_info [] "a" = none :=
  tracking_json_decode_error_empty_ledger (fun _ => JsonOutcome.jsonDecodeError)
    [0x78] "x" "a" (by decide) rfl

/-! ### Claim C10 -/

/-- C10 (counterexample): conversion does not preserve content
byte-for-byte — a markdown file containing the bytes `"a\r\nb"` converts
to a `.txt` whose content is `"a\nb"` (text-mode reading applies
universal-newline translation). -/
theorem convert_crlf_changes_bytes :
    convert_md_to_txt ['a', '\r', '\n', 'b'] = ['a', '\n', 'b'] ∧
      convert_md_to_txt ['a', '\r', '\n', 'b'] ≠ ['a', '\r', '\n', 'b'] := by
  decide

/-- C10 (amended): for every markdown file containing no carriage-return
character, the temporary `.txt` file produced by the converter has content
equal to the source file's content. -/
theorem convert_preserves_content_no_cr (md : List Char) (h : '\r' ∉ md) :
    convert_md_to_txt md = md := by
  rw [convert_md_to_txt, univNewlines_no_cr md h, writeNewlines_id]

/-- Witness for C10 (amended) on the CR-free content `"a\nb"`. -/
theorem convert_preserves_content_no_cr_witness :
    convert_md_to_txt ['a', '\n', 'b'] = ['a', '\n', 'b'] :=
  convert_preserves_content_no_cr ['a', '\n', 'b'] (by decide)

/-! ### Claim C4 -/

/-- C4 (counterexample): in the execution of `replace_file` with old file
id 7 and new file 8, the remote delete of the old file strictly precedes
the upload of the new content, and likewise the vector-store
`replace_file` removes the old index entry before adding the new one. -/
theorem replace_deletes_before_upload :
    deleteBeforeUpload (OpenAIFileManager.replace_file (some 7) 8).1 = true ∧
      removeBeforeAdd (VectorStoreManager.replace_file (some 3) 8 9).1 = true := by
  decide

/-- C4 (amended): the replace step is delete-then-upload: in every
execution with an old id present, the trace is exactly the delete of the
old entry followed by the upload (or index-add) of the new one. -/
theorem replace_trace_delete_then_upload :
    ∀ oldF newF oldV newFid newVid : Nat,
      (OpenAIFileManager.replace_file (some oldF) newF).1
          = [RemoteOp.deleteFile oldF, RemoteOp.uploadFile newF] ∧
        (VectorStoreManager.replace_file (some oldV) newFid newVid).1
          = [RemoteOp.indexRemove oldV, RemoteOp.indexAdd newFid] := by
  intro oldF newF oldV newFid newVid
  exact ⟨rfl, rfl⟩

/-! ### Counterexamples to C2, C3, C5 -/

/-- C2 (counterexample): starting from a local copy of article `a` holding
stale content `"old"`, two successive runs with the same source content
`"new"` both classify `a` as updated; the second run still reports one
Uploaded and zero Skipped, because the first run never rewrites the local
copy (it uploads the old file at `local_path` and leaves the stale bytes in
place). -/
theorem second_run_still_uploads :
    (runOnce (fun s => s) [("a", "new")]
        (runOnce (fun s => s) [("a", "new")] ⟨[("a", "old")], [], [], [], 0⟩).1).2
      = ⟨["a"], [], []⟩ := by
  decide

/-- C3 (counterexample): article `a` is locally present with a matching
fingerprint but has no remote entry at all; the run reports it Skipped and
performs no remote mutation and no ledger write — the plan is not escalated
to New and nothing is re-uploaded. -/
theorem unchanged_missing_remote_not_escalated :
    runOnce (fun s => s) [("a", "x")] ⟨[("a", "x")], [], [], [], 0⟩
      = (⟨[("a", "x")], [], [], [], 0⟩, ⟨[], ["a"], []⟩) := by
  decide

/-- C5 (counterexample): article `b` is Changed (local `"old"`, scraped
`"new"`) and its old remote entry is live; reconciliation completes
"successfully" (counted uploaded) yet the state is untouched: the old
vector-store entry remains the only one, the old OpenAI file id 0 is still
resolvable, and the ledger still holds the old fingerprint. -/
theorem changed_item_old_entry_survives :
    runOnce (fun s => s) [("b", "new")]
        ⟨[("b", "old")], [(0, "b")], [(1, 0)], [("b", ⟨0, 1, some "old", none⟩)], 2⟩
      = (⟨[("b", "old")], [(0, "b")], [(1, 0)], [("b", ⟨0, 1, some "old", none⟩)], 2⟩,
         ⟨["b"], [], []⟩) := by
  decide

/-! ### Claim C1 -/

/-- C1: for every content id in the current source set, the per-id plan of
`identify_changes` is: no local record for the id ⇒ the article is in
`new`; a record whose stored fingerprint equals the fingerprint of the
current content ⇒ the article is in `unchanged`; differing fingerprints ⇒
the article is in `updated` and never in `unchanged`. -/
theorem identify_changes_plan (H : String → String) (scraped : List (String × String))
    (localA : List (String × LocalArticle)) (id content : String)
    (hmem : (id, content) ∈ scraped)
    (hnd : (scraped.map Prod.fst).Nodup) :
    (List.lookup id localA = none →
      (id, content) ∈ (identify_changes H scraped localA).new) ∧
    (∀ la, List.lookup id localA = some la → H content = la.hash →
      (id, la.path) ∈ (identify_changes H scraped localA).unchanged) ∧
    (∀ la, List.lookup id localA = some la → H content ≠ la.hash →
      (id, content, la.path) ∈ (identify_changes H scraped localA).updated ∧
        ∀ pth, (id, pth) ∉ (identify_changes H scraped localA).unchanged) := by
  rw [identify_changes_eq]
  refine ⟨?_, ?_, ?_⟩
  · intro hnone
    exact List.mem_filter.mpr ⟨hmem, by simp [hnone]⟩
  · intro la hla heq
    refine List.mem_filterMap.mpr ⟨(id, content), hmem, ?_⟩
    simp [hla, has_content_changed, heq]
  · intro la hla hne
    constructor
    · refine List.mem_filterMap.mpr ⟨(id, content), hmem, ?_⟩
      simp [hla, has_content_changed, hne]
    · intro pth hmem2
      obtain ⟨q, hq, hfq⟩ := List.mem_filterMap.mp hmem2
      cases hql : List.lookup q.1 localA with
      | none => rw [hql] at hfq; simp at hfq
      | some la2 =>
        rw [hql] at hfq
        by_cases hc : has_content_changed H q.2 la2.hash
        · simp [hc] at hfq
        · simp only [Option.some_bind, if_neg hc] at hfq
          have hpair : (q.1, la2.path) = (id, pth) := Option.some_injective _ hfq
          have h1 : q.1 = id := (Prod.ext_iff.mp hpair).1
          have hq' : (id, q.2) ∈ scraped := by
            rw [← h1]; exact hq
          have hq2 : q.2 = content := nodup_keys_eq_val hnd hq' hmem
          rw [h1, hla] at hql
          have hla2 : la2 = la := Option.some_injective _ hql.symm
          rw [hq2, hla2, has_content_changed] at hc
          simp at hc
          exact hne hc

/-- Witness for C1: with identity digest, article `a` with scraped content
`"new"` against a local record with fingerprint `"old"` lands in
`updated`. -/
theorem identify_changes_plan_witness :
    ("a", "new", "pa") ∈ (identify_changes (fun s => s) [("a", "new")]
        [("a", { path := "pa", hash := "old" })]).updated :=
  ((identify_changes_plan (fun s => s) [("a", "new")]
      [("a", { path := "pa", hash := "old" })] "a" "new" (by decide) (by decide)).2.2
    { path := "pa", hash := "old" } (by decide) (by decide)).1

/-! ### Claim C3 (amended) -/

theorem stepNew_skipped (ex : List String) (acc : SyncState × RunResult)
    (p : String × String) : (stepNew ex acc p).2.skipped = acc.2.skipped := by
  dsimp only [stepNew]
  split <;> rfl

theorem stepUpdated_skipped (ex : List String) (acc : SyncState × RunResult)
    (p : String × String × String) :
    (stepUpdated ex acc p).2.skipped = acc.2.skipped := by
  dsimp only [stepUpdated]
  split <;> rfl

theorem foldl_stepNew_skipped (ex : List String) (items : List (String × String)) :
    ∀ acc, ((items.foldl (stepNew ex) acc).2).skipped = acc.2.skipped := by
  induction items with
  | nil => intro acc; rfl
  | cons p t ih =>
    intro acc
    rw [List.foldl_cons, ih]
    exact stepNew_skipped ex acc p

theorem foldl_stepUpdated_skipped (ex : List String)
    (items : List (String × String × String)) :
    ∀ acc, ((items.foldl (stepUpdated ex) acc).2).skipped = acc.2.skipped := by
  induction items with
  | nil => intro acc; rfl
  | cons p t ih =>
    intro acc
    rw [List.foldl_cons, ih]
    exact stepUpdated_skipped ex acc p

/-- C3 (amended): items classified Unchanged are counted Skipped
unconditionally, with no remote existence probe and no escalation to New:
the Skipped list is exactly the unchanged ids, and the unchanged items
influence neither the resulting state nor the uploaded list (both are the
same as when the unchanged list is emptied). -/
theorem unchanged_counted_skipped_no_probe :
    ∀ (st : SyncState) (ch : Changes) (ex : List String),
      (upload_delta st ch ex).2.skipped = ch.unchanged.map Prod.fst ∧
      (upload_delta st ch ex).1 = (upload_delta st { ch with unchanged := [] } ex).1 ∧
      (upload_delta st ch ex).2.uploaded
        = (upload_delta st { ch with unchanged := [] } ex).2.uploaded := by
  intro st ch ex
  refine ⟨?_, rfl, rfl⟩
  dsimp only [upload_delta]
  rw [foldl_stepUpdated_skipped, foldl_stepNew_skipped]
  rfl

/-! ### Claim C5 (amended) -/

/-- C5 (amended): after a Changed item's reconciliation completes
successfully, no old remote entry has been removed and no old remote file
deleted: if the item's id is already present in the remote index the
reconciliation is a no-op for it (the old entry stays, the ledger is
unchanged); otherwise a new file and index entry are appended alongside
any existing ones and the ledger record for the path stores the new remote
ids with no fingerprint. -/
theorem upload_article_appends_only :
    ∀ (st : SyncState) (id content : String) (ex : List String) (pth : String),
      (id ∈ ex → upload_article st id content ex (some pth) = (st, true)) ∧
      (id ∉ ex →
        upload_article st id content ex (some pth)
          = ({ st with
                openaiFiles := st.openaiFiles ++ [(st.nextId, pth)]
                vectorFiles := st.vectorFiles ++ [(st.nextId + 1, st.nextId)]
                tracking := setA st.tracking pth ⟨st.nextId, st.nextId + 1, none, none⟩
                nextId := st.nextId + 2 }, true)) := by
  intro st id content ex pth
  constructor
  · intro h
    rw [upload_article, if_pos h]
  · intro h
    rw [upload_article, if_neg h]
    rfl

/-- Witness for C5 (amended): both branches at concrete inputs — an id
already in the remote index leaves the state untouched; a fresh id appends
a file, an index entry, and an unfingerprinted ledger record. -/
theorem upload_article_appends_only_witness :
    upload_article ⟨[], [], [], [], 0⟩ "a" "c" ["a"] (some "a")
        = ((⟨[], [], [], [], 0⟩ : SyncState), true) ∧
      upload_article ⟨[], [], [], [], 0⟩ "a" "c" [] (some "a")
        = ((⟨[], [(0, "a")], [(1, 0)], [("a", ⟨0, 1, none, none⟩)], 2⟩ : SyncState), true) := by
  constructor
  · exact (upload_article_appends_only ⟨[], [], [], [], 0⟩ "a" "c" ["a"] "a").1 (by decide)
  · exact (upload_article_appends_only ⟨[], [], [], [], 0⟩ "a" "c" [] "a").2 (by decide)

/-! ### Claim C2 (amended): idempotence from a fresh-or-in-sync start -/

theorem foldl_stepNew_spec (ex : List String) (items : List (String × String)) :
    ∀ acc : SyncState × RunResult, (∀ p ∈ items, p.1 ∉ ex) →
      ((items.foldl (stepNew ex) acc).1.localFiles
          = items.foldl (fun lf p => setA lf p.1 p.2) acc.1.localFiles) ∧
        ((items.foldl (stepNew ex) acc).2
          = { acc.2 with uploaded := acc.2.uploaded ++ items.map Prod.fst }) := by
  induction items with
  | nil =>
    intro acc _
    exact ⟨rfl, by simp⟩
  | cons p t ih =>
    intro acc h
    have hp : p.1 ∉ ex := h p (List.mem_cons_self p t)
    have ht : ∀ q ∈ t, q.1 ∉ ex := fun q hq => h q (List.mem_cons_of_mem p hq)
    have hstep : stepNew ex acc p
        = ({ acc.1 with
              localFiles := setA acc.1.localFiles p.1 p.2
              openaiFiles := acc.1.openaiFiles ++ [(acc.1.nextId, p.1)]
              vectorFiles := acc.1.vectorFiles ++ [(acc.1.nextId + 1, acc.1.nextId)]
              tracking := setA acc.1.tracking p.1 ⟨acc.1.nextId, acc.1.nextId + 1, none, none⟩
              nextId := acc.1.nextId + 2 },
           { acc.2 with uploaded := acc.2.uploaded ++ [p.1] }) := by
      dsimp only [stepNew, upload_article]
      rw [if_neg hp]
      rfl
    rw [List.foldl_cons, List.foldl_cons, hstep]
    obtain ⟨h1, h2⟩ := ih _ ht
    constructor
    · rw [h1]
    · rw [h2]
      simp [List.append_assoc]

theorem lookup_get_local (H : String → String) (st : SyncState) (k : String) :
    List.lookup k (get_local_articles H st)
      = (List.lookup k st.localFiles).map (fun t => LocalArticle.mk k (H t)) := by
  exact lookup_map_val (fun a b => LocalArticle.mk a (H b)) st.localFiles k

theorem unchangedOf_keys (H : String → String) (scraped : List (String × String))
    (localA : List (String × LocalArticle))
    (h : ∀ p ∈ scraped, ∃ la, List.lookup p.1 localA = some la ∧
        has_content_changed H p.2 la.hash = false) :
    (unchangedOf H scraped localA).map Prod.fst = scraped.map Prod.fst := by
  induction scraped with
  | nil => rfl
  | cons p t ih =>
    obtain ⟨la, hla, hc⟩ := h p (List.mem_cons_self p t)
    have ih' := ih (fun q hq => h q (List.mem_cons_of_mem p hq))
    simp only [unchangedOf, List.filterMap_cons, hla, Option.some_bind, hc,
      Bool.false_eq_true, if_false, List.map_cons]
    simp only [unchangedOf] at ih'
    rw [ih']

theorem runOnce_localFiles (H : String → String) (scraped : List (String × String))
    (st : SyncState)
    (hupd : updatedOf H scraped (get_local_articles H st) = [])
    (hex : ∀ p ∈ newOf scraped (get_local_articles H st), p.1 ∉ existingVS st) :
    (runOnce H scraped st).1.localFiles
      = (newOf scraped (get_local_articles H st)).foldl
          (fun lf p => setA lf p.1 p.2) st.localFiles := by
  dsimp only [runOnce]
  rw [identify_changes_eq]
  dsimp only [upload_delta]
  rw [hupd, List.foldl_nil]
  exact (foldl_stepNew_spec (existingVS st) _ _ hex).1

theorem runOnce_result_all_unchanged (H : String → String)
    (scraped : List (String × String)) (st : SyncState)
    (hnew : newOf scraped (get_local_articles H st) = [])
    (hupd : updatedOf H scraped (get_local_articles H st) = []) :
    (runOnce H scraped st).2
      = ⟨[], (unchangedOf H scraped (get_local_articles H st)).map Prod.fst, []⟩ := by
  dsimp only [runOnce]
  rw [identify_changes_eq]
  dsimp only [upload_delta]
  rw [hnew, hupd, List.foldl_nil, List.foldl_nil]
  rfl

/-- C2 (amended): running reconciliation twice with the same source
content set and no external remote mutation yields zero Uploaded and zero
Failed with every item counted Skipped on the second run, provided the
first run starts from a fresh-or-in-sync state: every source id is either
absent both locally and from the remote index, or present locally with a
fingerprint matching the current content. (Without that proviso the claim
fails: see the counterexample, where a stale local copy makes every run
re-upload.) -/
theorem second_run_all_skipped (H : String → String) (scraped : List (String × String))
    (st0 : SyncState)
    (hnd : (scraped.map Prod.fst).Nodup)
    (hinit : ∀ p ∈ scraped,
      (List.lookup p.1 st0.localFiles = none ∧ p.1 ∉ existingVS st0) ∨
        (∃ t, List.lookup p.1 st0.localFiles = some t ∧ H t = H p.2)) :
    (runOnce H scraped (runOnce H scraped st0).1).2
      = ⟨[], scraped.map Prod.fst, []⟩ := by
  have hupd0 : updatedOf H scraped (get_local_articles H st0) = [] := by
    refine List.filterMap_eq_nil_iff.mpr ?_
    intro p hp
    rcases hinit p hp with ⟨hnone, _⟩ | ⟨t, hsome, hHt⟩
    · rw [lookup_get_local, hnone]
      rfl
    · rw [lookup_get_local, hsome]
      simp [has_content_changed, hHt]
  have hexnew : ∀ p ∈ newOf scraped (get_local_articles H st0), p.1 ∉ existingVS st0 := by
    intro p hp
    have hmem := (List.mem_filter.mp hp).1
    have hcond := (List.mem_filter.mp hp).2
    have hnone : List.lookup p.1 st0.localFiles = none := by
      rw [lookup_get_local] at hcond
      cases hl : List.lookup p.1 st0.localFiles with
      | none => rfl
      | some t => rw [hl] at hcond; simp at hcond
    rcases hinit p hmem with ⟨_, hnex⟩ | ⟨t, hsome, _⟩
    · exact hnex
    · rw [hsome] at hnone
      simp at hnone
  have hlf1 : (runOnce H scraped st0).1.localFiles
      = (newOf scraped (get_local_articles H st0)).foldl
          (fun lf p => setA lf p.1 p.2) st0.localFiles :=
    runOnce_localFiles H scraped st0 hupd0 hexnew
  have hndnew : ((newOf scraped (get_local_articles H st0)).map Prod.fst).Nodup := by
    have hsub : (newOf scraped (get_local_articles H st0)).Sublist scraped :=
      List.filter_sublist _
    exact hnd.sublist (hsub.map Prod.fst)
  have hlook1 : ∀ p ∈ scraped, ∃ t,
      List.lookup p.1 (runOnce H scraped st0).1.localFiles = some t ∧ H t = H p.2 := by
    intro p hp
    rcases hinit p hp with ⟨hnone, _⟩ | ⟨t, hsome, hHt⟩
    · have hpnew : p ∈ newOf scraped (get_local_articles H st0) := by
        refine List.mem_filter.mpr ⟨hp, ?_⟩
        rw [lookup_get_local, hnone]
        rfl
      refine ⟨p.2, ?_, rfl⟩
      rw [hlf1]
      exact lookup_foldl_setA_mem _ p.1 p.2 hndnew hpnew st0.localFiles
    · have hnotnew : p.1 ∉ (newOf scraped (get_local_articles H st0)).map Prod.fst := by
        intro hk
        obtain ⟨q, hq, hq1⟩ := List.mem_map.mp hk
        have hcond := (List.mem_filter.mp hq).2
        rw [lookup_get_local, hq1, hsome] at hcond
        simp at hcond
      refine ⟨t, ?_, hHt⟩
      rw [hlf1, lookup_foldl_setA_not_mem _ _ hnotnew, hsome]
  have hlook2 : ∀ p ∈ scraped, ∃ la,
      List.lookup p.1 (get_local_articles H (runOnce H scraped st0).1) = some la ∧
        has_content_changed H p.2 la.hash = false := by
    intro p hp
    obtain ⟨t, hl, hHt⟩ := hlook1 p hp
    refine ⟨⟨p.1, H t⟩, ?_, ?_⟩
    · rw [lookup_get_local, hl]
      rfl
    · simp [has_content_changed, hHt]
  have hnew1 : newOf scraped (get_local_articles H (runOnce H scraped st0).1) = [] := by
    refine List.filter_eq_nil_iff.mpr ?_
    intro p hp
    obtain ⟨la, hla, _⟩ := hlook2 p hp
    simp [hla]
  have hupd1 : updatedOf H scraped (get_local_articles H (runOnce H scraped st0).1) = [] := by
    refine List.filterMap_eq_nil_iff.mpr ?_
    intro p hp
    obtain ⟨la, hla, hc⟩ := hlook2 p hp
    rw [hla]
    simp [hc]
  rw [runOnce_result_all_unchanged H scraped _ hnew1 hupd1,
    unchangedOf_keys H scraped _ hlook2]

/-- Witness for C2 (amended): from the empty state, two runs over the
single source article `a` end with the second run reporting nothing
uploaded, nothing failed, and `a` skipped. -/
theorem second_run_all_skipped_witness :
    (runOnce (fun s => s) [("a", "x")]
        (runOnce (fun s => s) [("a", "x")] ⟨[], [], [], [], 0⟩).1).2
      = ⟨[], ["a"], []⟩ := by
  have h := second_run_all_skipped (fun s => s) [("a", "x")] ⟨[], [], [], [], 0⟩
    (by decide)
    (by
      intro p hp
      rw [List.mem_singleton] at hp
      subst hp
      exact Or.inl (by decide))
  exact h
